import Mathlib

/-!
# Verification of the iShares index-weights pipeline

A shallow embedding of the two pipelines of the repository:

* `src/main.py` — the fetcher: date-range generation (`main`), the per-date
  snapshot fetch (`get_constituents`), and the resumable orchestration
  (`process_date` plus the aggregation loop in `main`).
* `src/data_cleaner.py` — the cleaner: per-holding filtering and reshaping
  (`process_holding`), per-file processing (`process_json_file`), the global
  sort and tie-aware ranking of the combined output (`main`), and the
  per-date positional ranking (`save_daily_files`).

JSON payloads are modelled by the inductive `JValue`; Python dictionaries
parsed from JSON become association lists with distinct keys, and JSON
numbers become rationals.  Network traffic is modelled by an explicit
oracle (date ↦ parsed response or transport/decode failure), and the
filesystem by the list of date keys whose snapshot file exists.
-/

namespace IShares

/-- A parsed JSON value (the result of `json.loads`).  JSON numbers are
modelled as rationals; objects as association lists of key/value pairs
(parsed Python dicts have distinct keys). -/
inductive JValue : Type where
  | null : JValue
  | bool (b : Bool) : JValue
  | num (q : Rat) : JValue
  | str (s : String) : JValue
  | arr (xs : List JValue) : JValue
  | obj (fields : List (String × JValue)) : JValue

mutual

/-- Boolean structural equality on `JValue` (used to derive decidable
equality, which the automatic deriving handler cannot produce for this
nested inductive). -/
def JValue.beq : JValue → JValue → Bool
  | .null, .null => true
  | .bool a, .bool b => a == b
  | .num a, .num b => a == b
  | .str a, .str b => a == b
  | .arr xs, .arr ys => JValue.beqList xs ys
  | .obj fs, .obj gs => JValue.beqFields fs gs
  | _, _ => false

/-- Pointwise `JValue.beq` on lists of values. -/
def JValue.beqList : List JValue → List JValue → Bool
  | [], [] => true
  | x :: xs, y :: ys => JValue.beq x y && JValue.beqList xs ys
  | _, _ => false

/-- Pointwise `JValue.beq` on association lists. -/
def JValue.beqFields : List (String × JValue) → List (String × JValue) → Bool
  | [], [] => true
  | (k, v) :: fs, (l, w) :: gs => k == l && JValue.beq v w && JValue.beqFields fs gs
  | _, _ => false

end

mutual

/-- `JValue.beq` decides propositional equality. -/
theorem JValue.beq_iff : ∀ a b : JValue, JValue.beq a b = true ↔ a = b
  | .null, b => by cases b <;> simp [JValue.beq]
  | .bool x, b => by cases b <;> simp [JValue.beq]
  | .num x, b => by cases b <;> simp [JValue.beq]
  | .str x, b => by cases b <;> simp [JValue.beq]
  | .arr xs, b => by
      cases b <;> simp [JValue.beq]
      exact JValue.beqList_iff xs _
  | .obj fs, b => by
      cases b <;> simp [JValue.beq]
      exact JValue.beqFields_iff fs _

/-- `JValue.beqList` decides propositional equality. -/
theorem JValue.beqList_iff : ∀ xs ys : List JValue, JValue.beqList xs ys = true ↔ xs = ys
  | [], ys => by cases ys <;> simp [JValue.beqList]
  | x :: xs, ys => by
      cases ys with
      | nil => simp [JValue.beqList]
      | cons y ys =>
          simp [JValue.beqList, Bool.and_eq_true, JValue.beq_iff x y,
            JValue.beqList_iff xs ys]

/-- `JValue.beqFields` decides propositional equality. -/
theorem JValue.beqFields_iff :
    ∀ fs gs : List (String × JValue), JValue.beqFields fs gs = true ↔ fs = gs
  | [], gs => by cases gs <;> simp [JValue.beqFields]
  | (k, v) :: fs, gs => by
      cases gs with
      | nil => simp [JValue.beqFields]
      | cons g gs =>
          obtain ⟨l, w⟩ := g
          simp [JValue.beqFields, Bool.and_eq_true, JValue.beq_iff v w,
            JValue.beqFields_iff fs gs, and_assoc]

end

instance : DecidableEq JValue := fun a b =>
  decidable_of_iff (JValue.beq a b = true) (JValue.beq_iff a b)

/-- Association-list lookup: the value stored under key `k`.  Models Python
`dict.get(k)` / `dict[k]` on a dict parsed from JSON (keys distinct). -/
def jLookup (k : String) : List (String × JValue) → Option JValue
  | [] => none
  | (l, v) :: fs => if l = k then some v else jLookup k fs

/-! ## String ordering

Python compares strings lexicographically by code point; this is also what
pandas does when sorting a string column.  Lean's built-in `String.lt` is
the same order but is not reducible by the kernel on literals, so the
embedding carries its own executable code-point lexicographic order. -/

/-- Code-point lexicographic strict order on lists of characters
(the order Python uses to compare strings). -/
def charsLt : List Char → List Char → Bool
  | [], [] => false
  | [], _ :: _ => true
  | _ :: _, [] => false
  | a :: as, b :: bs => a < b || (a = b && charsLt as bs)

/-- Strict order on strings: code-point lexicographic (Python `<`). -/
def strLt (a b : String) : Bool := charsLt a.data b.data

theorem charsLt_trans : ∀ {as bs cs : List Char},
    charsLt as bs = true → charsLt bs cs = true → charsLt as cs = true
  | [], _ :: _, _ :: _, _, _ => rfl
  | a :: as, b :: bs, c :: cs, h1, h2 => by
      simp only [charsLt, Bool.or_eq_true, Bool.and_eq_true, decide_eq_true_eq] at *
      rcases h1 with h1 | ⟨rfl, h1⟩
      · rcases h2 with h2 | ⟨rfl, h2⟩
        · exact Or.inl (lt_trans h1 h2)
        · exact Or.inl h1
      · rcases h2 with h2 | ⟨rfl, h2⟩
        · exact Or.inl h2
        · exact Or.inr ⟨rfl, charsLt_trans h1 h2⟩

theorem charsLt_tricho : ∀ as bs : List Char,
    charsLt as bs = true ∨ as = bs ∨ charsLt bs as = true
  | [], [] => Or.inr (Or.inl rfl)
  | [], _ :: _ => Or.inl rfl
  | _ :: _, [] => Or.inr (Or.inr rfl)
  | a :: as, b :: bs => by
      rcases lt_trichotomy a b with h | rfl | h
      · exact Or.inl (by simp [charsLt, h])
      · rcases charsLt_tricho as bs with h | rfl | h
        · exact Or.inl (by simp [charsLt, h])
        · exact Or.inr (Or.inl rfl)
        · exact Or.inr (Or.inr (by simp [charsLt, h]))
      · exact Or.inr (Or.inr (by simp [charsLt, h]))

theorem charsLt_irrefl : ∀ as : List Char, charsLt as as = false
  | [] => rfl
  | a :: as => by simp [charsLt, charsLt_irrefl as]

theorem strLt_trans {a b c : String} (h1 : strLt a b = true) (h2 : strLt b c = true) :
    strLt a c = true := charsLt_trans h1 h2

theorem strLt_tricho (a b : String) : strLt a b = true ∨ a = b ∨ strLt b a = true := by
  rcases charsLt_tricho a.data b.data with h | h | h
  · exact Or.inl h
  · refine Or.inr (Or.inl ?_)
    cases a; cases b; exact congrArg String.mk h
  · exact Or.inr (Or.inr h)

theorem strLt_irrefl (a : String) : strLt a a = false := charsLt_irrefl a.data

theorem strLt_asymm {a b : String} (h : strLt a b = true) : strLt b a = false := by
  by_contra hc
  have hba : strLt b a = true := by
    cases hb : strLt b a
    · exact absurd hb hc
    · rfl
  have := strLt_trans h hba
  rw [strLt_irrefl] at this
  exact Bool.false_ne_true this

theorem strLt_ne {a b : String} (h : strLt a b = true) : a ≠ b := by
  rintro rfl
  rw [strLt_irrefl] at h
  exact Bool.false_ne_true h

/-! ## The cleaner: `src/data_cleaner.py`

`process_holding(holding, date)` receives one element of the payload's
`aaData` list (a positional tuple) and either returns a cleaned record or
`None`.  In Python the two `None` outcomes are: the asset-class slot
(`holding[3]`) differs from the string `'Equity'`, or a positional access
raises `IndexError`/`AttributeError`, which is caught, logged and turned
into `None`.  Both are modelled by `none`. -/

/-- A cleaned holding record: the dict literal built by `process_holding`
(`{'date', 'ticker', 'name', 'sector', 'weight'}`).  Field values other
than the date are taken verbatim from the raw payload, so they stay
`JValue`s. -/
structure HoldingRecord where
  date : String
  ticker : JValue
  name : JValue
  sector : JValue
  weight : JValue
  deriving DecidableEq

/-- The weight extraction of `process_holding`, line 23 of
`data_cleaner.py`: `holding[5].get('raw', 0) if isinstance(holding[5], dict)
else 0`.  A non-dict weight container yields `0`; a dict without a `'raw'`
key yields the `.get` default `0`. -/
def extractWeight (w : JValue) : JValue :=
  match w with
  | .obj fs => (jLookup "raw" fs).getD (.num 0)
  | _ => .num 0

/-- `process_holding` from `data_cleaner.py`.  `holding[3]` is read first;
a short tuple raises `IndexError` (caught: `none`).  A non-`'Equity'`
asset class returns `None`.  Otherwise positions 0, 1, 2 and 5 are read
(5 can again raise `IndexError`, caught: `none`). -/
def process_holding (holding : List JValue) (date : String) : Option HoldingRecord :=
  match holding.get? 3 with
  | none => none
  | some assetTag =>
    match assetTag with
    | .str tag =>
      if tag = "Equity" then
        match holding.get? 5 with
        | none => none
        | some w =>
          some { date := date
                 ticker := (holding.get? 0).getD .null
                 name := (holding.get? 1).getD .null
                 sector := (holding.get? 2).getD .null
                 weight := extractWeight w }
      else none
    | _ => none

/-- The filename-to-display-date reshaping of `process_json_file`:
`f"{date[:4]}-{date[4:6]}-{date[6:]}"`. -/
def dashDate (s : String) : String :=
  s.take 4 ++ "-" ++ ((s.drop 4).take 2) ++ "-" ++ s.drop 6

/-- The fate of one element of the `aaData` list inside the loop of
`process_json_file`.  A JSON array is the positional tuple
`process_holding` expects.  Indexing a string yields a one-character
string (never `'Equity'`) or a caught `IndexError`, so string elements
are merely skipped.  Any other element (`dict`, number, `null`, bool)
raises `KeyError`/`TypeError` at `holding[3]` — exceptions the inner
`except (IndexError, AttributeError)` does not catch — modelled by the
outer `none`. -/
def entryOutcome (date : String) (e : JValue) : Option (Option HoldingRecord) :=
  match e with
  | .arr h => some (process_holding h date)
  | .str _ => some none
  | _ => none

/-- The per-file holding loop of `process_json_file`: iterate `aaData`
in order, keep the records `process_holding` accepts (`if processed:` —
a non-`None` result is a non-empty dict, hence truthy).  An uncaught
exception aborts the loop; the file-level handler then returns `[]`,
modelled by the outer `none`. -/
def processEntries (date : String) : List JValue → Option (List HoldingRecord)
  | [] => some []
  | e :: es =>
    match entryOutcome date e with
    | none => none
    | some r =>
      (processEntries date es).map (fun rest =>
        match r with
        | some rec => rec :: rest
        | none => rest)

/-- `process_json_file` applied to an already-parsed payload.  Line 35:
`if not data.get('aaData'): return []` — a missing, `null`, empty-list (or
otherwise falsy) `aaData` contributes zero records.  A truthy non-list
`aaData` makes the `for` loop raise; the outer `except` returns `[]`. -/
def processPayload (fileDate : String) (data : JValue) : List HoldingRecord :=
  match data with
  | .obj fs =>
    match jLookup "aaData" fs with
    | some (.arr hs) => (processEntries (dashDate fileDate) hs).getD []
    | _ => []
  | _ => []

/-- Truthiness of a parsed JSON value as a Python object (`not data.get('aaData')`
is the negation of this).  Python: `None`, `False`, `0`, `''`, `[]`, `{}`
are falsy. -/
def jTruthy : JValue → Bool
  | .null => false
  | .bool b => b
  | .num q => q ≠ 0
  | .str s => s ≠ ""
  | .arr xs => xs ≠ []
  | .obj fs => fs ≠ []

/-- The cleaner's emptiness test on a payload (`not data.get('aaData')` in
`process_json_file`): fires when `aaData` is absent or falsy. -/
def cleanerSkipsPayload (data : JValue) : Bool :=
  match data with
  | .obj fs =>
    match jLookup "aaData" fs with
    | none => true
    | some v => ! jTruthy v
  | _ => true

/-! ## The DataFrame stage of `data_cleaner.main` and `save_daily_files`

The cleaned records are collected into a DataFrame whose `weight` column
holds the extracted numbers.  `weightVal` reads that number (the
DataFrame stage is only exercised on records whose weight is numeric, as
the theorems' hypotheses record). -/

/-- The numeric value in the `weight` column of the DataFrame. -/
def weightVal (r : HoldingRecord) : Rat :=
  match r.weight with
  | .num q => q
  | _ => 0

/-- Row order of `df.sort_values(['date', 'weight'], ascending=[True, False])`:
date ascending (string order), then weight descending. -/
def rowLE (a b : HoldingRecord) : Prop :=
  strLt a.date b.date = true ∨ (a.date = b.date ∧ weightVal b ≤ weightVal a)

instance : DecidableRel rowLE := fun a b => by
  unfold rowLE; infer_instance

instance : IsTotal HoldingRecord rowLE where
  total a b := by
    unfold rowLE
    rcases strLt_tricho a.date b.date with h | h | h
    · exact Or.inl (Or.inl h)
    · rcases le_total (weightVal b) (weightVal a) with hw | hw
      · exact Or.inl (Or.inr ⟨h, hw⟩)
      · exact Or.inr (Or.inr ⟨h.symm, hw⟩)
    · exact Or.inr (Or.inl h)

instance : IsTrans HoldingRecord rowLE where
  trans a b c hab hbc := by
    unfold rowLE at *
    rcases hab with h1 | ⟨e1, w1⟩
    · rcases hbc with h2 | ⟨e2, w2⟩
      · exact Or.inl (strLt_trans h1 h2)
      · exact Or.inl (e2 ▸ h1)
    · rcases hbc with h2 | ⟨e2, w2⟩
      · exact Or.inl (e1 ▸ h2)
      · exact Or.inr ⟨e1.trans e2, w2.trans w1⟩

/-- The global sort of `data_cleaner.main`, line 107. -/
def sortRows (rows : List HoldingRecord) : List HoldingRecord :=
  List.insertionSort rowLE rows

/-- The tie-aware rank of `data_cleaner.main`, line 110:
`df.groupby('date')['weight'].rank(method='min', ascending=False)`.
The rank of a row is one more than the number of rows of the same date
with strictly greater weight (`method='min'`: tied weights all receive the
smallest position of their tie group). -/
def minRank (rows : List HoldingRecord) (r : HoldingRecord) : Nat :=
  1 + rows.countP (fun x => x.date = r.date && decide (weightVal r < weightVal x))

/-- The combined output (`historical.csv`): rows in globally sorted order,
each labelled with its tie-aware per-date rank. -/
def combinedOutput (rows : List HoldingRecord) : List (Nat × HoldingRecord) :=
  (sortRows rows).map (fun r => (minRank rows r, r))

/-- The weight-descending order used by `save_daily_files`, line 69
(`sort_values('weight', ascending=False)`). -/
def weightGE (a b : HoldingRecord) : Prop :=
  weightVal b ≤ weightVal a

instance : DecidableRel weightGE := fun a b => by
  unfold weightGE; infer_instance

instance : IsTotal HoldingRecord weightGE where
  total a b := le_total (weightVal b) (weightVal a)

instance : IsTrans HoldingRecord weightGE where
  trans _ _ _ hab hbc := le_trans hbc hab

/-- The rows of one per-date file before ranking: the combined frame's
rows of that date, re-sorted by weight descending. -/
def dailySorted (rows : List HoldingRecord) (date : String) : List HoldingRecord :=
  List.insertionSort weightGE ((sortRows rows).filter (fun r => r.date = date))

/-- A per-date file of `save_daily_files`: the date's rows sorted by
weight descending, with sequential positional ranks
`range(1, len(date_df) + 1)` (line 71). -/
def dailyFile (rows : List HoldingRecord) (date : String) : List (Nat × HoldingRecord) :=
  (List.range' 1 (dailySorted rows date).length).zip (dailySorted rows date)

/-! ## The fetcher: `src/main.py`

`get_constituents` sends one HTTP request, re-decodes the body with
`utf-8-sig` (stripping at most one leading byte-order mark), parses the
JSON, and treats `data.get("aaData") == []` as "no data".  The network is
an oracle `upstream : date ↦ Option text` (`none` = transport error /
non-2xx, caught as `requests.exceptions.RequestException`). -/

/-- The byte-order mark as a character (`'﻿'`): this is what a
UTF-8 BOM becomes after `requests` decodes the body. -/
def bomChar : Char := Char.ofNat 0xFEFF

/-- `text.encode().decode('utf-8-sig')`: remove one leading byte-order
mark if present. -/
def stripBom : List Char → List Char
  | c :: r => if c = bomChar then r else c :: r
  | [] => []

/-! A model of `json.loads` on the decoded text: a recursive-descent
parser for the JSON grammar producing a `JValue` (string escape
sequences and exponent notation are not modelled — no theorem exercises
them).  Like CPython's `json.loads`, a text that still begins with a
byte-order mark is rejected. -/

/-- JSON whitespace. -/
def isJsonWs (c : Char) : Bool := c = ' ' || c = '\t' || c = '\n' || c = '\r'

/-- Drop leading JSON whitespace. -/
def skipWs (s : List Char) : List Char := s.dropWhile isJsonWs

/-- Digits to a natural number, most significant first. -/
def digitsToNat (ds : List Char) : Nat := ds.foldl (fun acc c => 10 * acc + (c.toNat - 48)) 0

/-- Parse a JSON number (integer part, optional fraction). -/
def parseNum (s : List Char) : Option (JValue × List Char) :=
  let neg := decide (s.head? = some '-')
  let s1 := if neg then s.tail else s
  let ip := s1.takeWhile Char.isDigit
  let r1 := s1.dropWhile Char.isDigit
  if ip = [] then none
  else
    match r1 with
    | '.' :: r2 =>
      let fp := r2.takeWhile Char.isDigit
      let r3 := r2.dropWhile Char.isDigit
      if fp = [] then none
      else
        let scale := 10 ^ fp.length
        let mag : Int := (digitsToNat ip * scale + digitsToNat fp : Nat)
        some (.num (mkRat (if neg then -mag else mag) scale), r3)
    | _ =>
      let mag : Int := digitsToNat ip
      some (.num (mkRat (if neg then -mag else mag) 1), r1)

/-- Parse the body of a JSON string after the opening quote. -/
def parseStrBody : List Char → Option (List Char × List Char)
  | [] => none
  | '"' :: r => some ([], r)
  | '\\' :: _ => none
  | c :: r => (parseStrBody r).map (fun p => (c :: p.1, p.2))

mutual

/-- Parse one JSON value; `fuel` bounds the nesting depth. -/
def parseVal : Nat → List Char → Option (JValue × List Char)
  | 0, _ => none
  | fuel + 1, s =>
    match skipWs s with
    | 'n' :: 'u' :: 'l' :: 'l' :: r => some (.null, r)
    | 't' :: 'r' :: 'u' :: 'e' :: r => some (.bool true, r)
    | 'f' :: 'a' :: 'l' :: 's' :: 'e' :: r => some (.bool false, r)
    | '"' :: r => (parseStrBody r).map (fun p => (.str (String.mk p.1), p.2))
    | '[' :: r =>
      (match skipWs r with
       | ']' :: r2 => some (.arr [], r2)
       | r2 => (parseElems fuel r2).map (fun p => (.arr p.1, p.2)))
    | '{' :: r =>
      (match skipWs r with
       | '}' :: r2 => some (.obj [], r2)
       | r2 => (parseMembers fuel r2).map (fun p => (.obj p.1, p.2)))
    | s1 => parseNum s1

/-- Parse the comma-separated elements of a non-empty JSON array. -/
def parseElems : Nat → List Char → Option (List JValue × List Char)
  | 0, _ => none
  | fuel + 1, s =>
    match parseVal fuel s with
    | none => none
    | some (v, r) =>
      match skipWs r with
      | ',' :: r2 => (parseElems fuel r2).map (fun p => (v :: p.1, p.2))
      | ']' :: r2 => some ([v], r2)
      | _ => none

/-- Parse the members of a non-empty JSON object. -/
def parseMembers : Nat → List Char → Option (List (String × JValue) × List Char)
  | 0, _ => none
  | fuel + 1, s =>
    match skipWs s with
    | '"' :: r =>
      (match parseStrBody r with
       | none => none
       | some (k, r1) =>
         match skipWs r1 with
         | ':' :: r2 =>
           (match parseVal fuel r2 with
            | none => none
            | some (v, r3) =>
              match skipWs r3 with
              | ',' :: r4 => (parseMembers fuel r4).map (fun p => ((String.mk k, v) :: p.1, p.2))
              | '}' :: r4 => some ([(String.mk k, v)], r4)
              | _ => none)
         | _ => none)
    | _ => none

end

/-- `json.loads` on decoded text: rejects a text that still begins with a
byte-order mark (CPython raises `JSONDecodeError: Unexpected UTF-8 BOM`),
otherwise parses exactly one JSON value surrounded by whitespace.
`none` models a raised `JSONDecodeError`. -/
def jsonLoads (s : List Char) : Option JValue :=
  if s.head? = some bomChar then none
  else
    match parseVal (s.length + 1) s with
    | some (v, r) => if skipWs r = [] then some v else none
    | none => none

/-- Line 53-54 of `main.py`: strip the BOM, then `json.loads`. -/
def parseResponse (text : List Char) : Option JValue := jsonLoads (stripBom text)

/-- The fixed identifier → endpoint URL table of `main.py`. -/
def index_to_url : List (String × String) :=
  [("spx500",
    "https://www.ishares.com/us/products/239726/ishares-core-sp-500-etf/1467271812596.ajax"),
   ("nikkei400",
    "https://www.ishares.com/us/products/239831/ishares-japan-largecap-etf/1467271812596.ajax"),
   ("msci_us_sri",
    "https://www.ishares.com/uk/individual/en/products/283565/ishares-sustainable-msci-usa-sri-ucits-etf/1506575576011.ajax")]

/-- `index_name in index_to_url` (the `assert` precondition). -/
def knownIndex (index_name : String) : Bool := (index_to_url.lookup index_name).isSome

/-- Lines 56-61 of `main.py` on a successfully parsed payload:
`data.get("aaData") == []` returns `None` ("no data"; note `None == []`
and `null == []` are `False`, so an absent or null `aaData` does NOT
fire); any other dict payload is returned as data.  `data.get` on a
non-dict payload raises `AttributeError`, caught by the bare `except` —
also `None`. -/
def handleParsed (data : JValue) : Option JValue :=
  match data with
  | .obj fs => if jLookup "aaData" fs = some (.arr []) then none else some data
  | _ => none

/-- `get_constituents(date_str, index_name)`.  The `assert` on line 30
fires before the `try` block: an unknown index raises `AssertionError`
out of the function (`.error ()`).  Inside the `try`, a transport failure
(`upstream date_str = none`) or a JSON decode failure is caught and
returns `None`; otherwise the parsed payload is screened by
`handleParsed`. -/
def get_constituents (upstream : String → Option (List Char))
    (date_str index_name : String) : Except Unit (Option JValue) :=
  if knownIndex index_name then
    .ok (match upstream date_str with
      | none => none
      | some text =>
        match parseResponse text with
        | none => none
        | some data => handleParsed data)
  else .error ()

/-- The date keys whose snapshot file exists. -/
def fileNames (files : List (String × JValue)) : List String :=
  files.map (fun f => f.1)

/-- `process_date(date_str, index_name)` acting on the filesystem state
(the list of `(date key, saved payload)` snapshot files for this index).
Returns success flag, number of network requests issued, and the new
state; an `AssertionError` from `get_constituents` propagates.  The
request count is 1 whenever `requests.get` ran (even if it failed). -/
def process_date (upstream : String → Option (List Char)) (index_name : String)
    (files : List (String × JValue)) (date_str : String) :
    Except Unit (Bool × Nat × List (String × JValue)) :=
  if date_str ∈ fileNames files then .ok (true, 0, files)
  else
    match get_constituents upstream date_str index_name with
    | .error e => .error e
    | .ok (some data) => .ok (true, 1, files ++ [(date_str, data)])
    | .ok none => .ok (false, 1, files)

/-- One iteration of the aggregation loop in `main.py` lines 131-139: a
task's exception is caught, logged, and counted as a non-success for that
date only. -/
def orchestrateOne (upstream : String → Option (List Char)) (index_name : String)
    (files : List (String × JValue)) (date_str : String) :
    Bool × Nat × List (String × JValue) :=
  match process_date upstream index_name files date_str with
  | .ok r => r
  | .error _ => (false, 0, files)

/-- The fetch orchestrator of `main.py` over a list of date keys: per-date
outcomes, total network requests, final filesystem state.  (The thread
pool's tasks touch pairwise distinct files, so the sequential fold gives
the same outcomes and counts as any completion order.) -/
def runFetch (upstream : String → Option (List Char)) (index_name : String)
    (files : List (String × JValue)) :
    List String → List (String × Bool) × Nat × List (String × JValue)
  | [] => ([], 0, files)
  | d :: ds =>
    let r := orchestrateOne upstream index_name files d
    let rest := runFetch upstream index_name r.2.2 ds
    ((d, r.1) :: rest.1, r.2.1 + rest.2.1, rest.2.2)

/-- The success counter of `main.py` (`successful_dates`). -/
def successCount (outcomes : List (String × Bool)) : Nat :=
  outcomes.countP (fun o => o.2)

/-- Whether fetching date `d` yields data (under a fixed upstream — "no
upstream changes" makes this the same in every run). -/
def fetchOk (upstream : String → Option (List Char)) (index_name d : String) : Bool :=
  match get_constituents upstream d index_name with
  | .ok (some _) => true
  | _ => false

/-! ## Dates and the range generator (`main.py`, lines 110-121)

`datetime` values at day granularity are proleptic-Gregorian calendar
dates with year in `1..9999`.  `current_date += timedelta(days=1)`
advances by one calendar day; `format_date` renders `%Y%m%d` (Python's
`datetime.strftime` zero-pads `%Y` to four digits).  `toOrdinal` is the
day count of `datetime.toordinal` (0001-01-01 ↦ 1), giving "end − start
in days" meaning. -/

/-- A calendar date (year, month, day). -/
structure CalDate where
  y : Nat
  m : Nat
  d : Nat
  deriving DecidableEq

/-- Gregorian leap-year test. -/
def isLeap (y : Nat) : Bool := (y % 4 == 0 && y % 100 != 0) || y % 400 == 0

/-- Days in month `m` of a year with leap status `L`. -/
def monthLength (L : Bool) (m : Nat) : Nat :=
  match m with
  | 2 => if L then 29 else 28
  | 4 => 30
  | 6 => 30
  | 9 => 30
  | 11 => 30
  | _ => 31

/-- A well-formed calendar date (no year upper bound; `Valid` below adds
`datetime.MAXYEAR`). -/
def ValidYMD (dt : CalDate) : Prop :=
  1 ≤ dt.y ∧ 1 ≤ dt.m ∧ dt.m ≤ 12 ∧ 1 ≤ dt.d ∧ dt.d ≤ monthLength (isLeap dt.y) dt.m

/-- A representable `datetime` date: well-formed with year at most 9999. -/
def Valid (dt : CalDate) : Prop := ValidYMD dt ∧ dt.y ≤ 9999

instance : DecidablePred ValidYMD := fun dt => by unfold ValidYMD; infer_instance

instance : DecidablePred Valid := fun dt => by unfold Valid; infer_instance

/-- Days before month `m` in a year with leap status `L`. -/
def daysBefore (L : Bool) (m : Nat) : Nat :=
  (match m with
   | 1 => 0
   | 2 => 31
   | 3 => 59
   | 4 => 90
   | 5 => 120
   | 6 => 151
   | 7 => 181
   | 8 => 212
   | 9 => 243
   | 10 => 273
   | 11 => 304
   | _ => 334) + (if L && decide (3 ≤ m) then 1 else 0)

/-- Leap years among `1..n`. -/
def leapsBefore (n : Nat) : Nat := n / 4 - n / 100 + n / 400

/-- `datetime.toordinal`: days since 0000-12-31 (so 0001-01-01 ↦ 1). -/
def toOrdinal (dt : CalDate) : Nat :=
  365 * (dt.y - 1) + leapsBefore (dt.y - 1) + daysBefore (isLeap dt.y) dt.m + dt.d

/-- `datetime.max`'s date: `current_date += timedelta(days=1)` raises
`OverflowError` exactly when `current_date` is this date (modelled in
`dateRangeAux`, which performs the increment). -/
def maxDate : CalDate := ⟨9999, 12, 31⟩

/-- `current_date + timedelta(days=1)` on calendar components: the value
of a SUCCESSFUL increment, i.e. of any date other than `maxDate` (at
`maxDate` the increment raises instead, see `dateRangeAux`). -/
def nextDay (dt : CalDate) : CalDate :=
  if dt.d < monthLength (isLeap dt.y) dt.m then ⟨dt.y, dt.m, dt.d + 1⟩
  else if dt.m < 12 then ⟨dt.y, dt.m + 1, 1⟩
  else ⟨dt.y + 1, 1, 1⟩

/-- The date key as a number, `y * 10000 + m * 100 + d`: the numeric
reading of the `YYYYMMDD` key.  On well-formed dates its order is exactly
`datetime`'s (lexicographic on year, month, day). -/
def keyNum (dt : CalDate) : Nat := dt.y * 10000 + dt.m * 100 + dt.d

/-- `current_date <= end_date` (datetime comparison, on valid dates). -/
def dateLE (a b : CalDate) : Bool := keyNum a ≤ keyNum b

/-- The decimal digit character of `k % 10`. -/
def decChar (k : Nat) : Char := Char.ofNat (48 + k % 10)

/-- `strftime('%Y')` on the reference platform (glibc): the year as an
UNPADDED decimal number — `999` renders as `"999"` (3 characters), not
`"0999"`.  Years of `datetime` range over `1..9999`, so four branches
suffice. -/
def yearChars (y : Nat) : List Char :=
  if y < 10 then [decChar y]
  else if y < 100 then [decChar (y / 10), decChar y]
  else if y < 1000 then [decChar (y / 100), decChar (y / 10), decChar y]
  else [decChar (y / 1000), decChar (y / 100), decChar (y / 10), decChar y]

/-- `format_date`: `date.strftime("%Y%m%d")` — the year unpadded (glibc
`%Y`), month and day zero-padded to two digits (`%m`, `%d`).  Keys are
therefore 8 characters only for years `1000..9999`. -/
def format_date (dt : CalDate) : String :=
  String.mk (yearChars dt.y ++
    [decChar (dt.m / 10), decChar dt.m, decChar (dt.d / 10), decChar dt.d])

/-- The `while current_date <= end_date` loop of `main.py`, with explicit
fuel (the loop itself terminates because the ordinal strictly increases;
`dateRangeDates` supplies exactly enough fuel).  The loop appends the
current date and THEN increments it; incrementing `datetime.max`'s date
raises `OverflowError`, which nothing catches — the run dies with no
list produced (`.error ()`). -/
def dateRangeAux (e : CalDate) : Nat → CalDate → Except Unit (List CalDate)
  | 0, _ => .ok []
  | fuel + 1, cur =>
    if dateLE cur e then
      if cur = maxDate then .error ()
      else
        match dateRangeAux e fuel (nextDay cur) with
        | .ok rest => .ok (cur :: rest)
        | .error u => .error u
    else .ok []

/-- The dates the fetcher loop visits, from `start` to `e` inclusive —
or `OverflowError` if the loop reaches `datetime.max`'s date. -/
def dateRangeDates (start e : CalDate) : Except Unit (List CalDate) :=
  dateRangeAux e (toOrdinal e + 1 - toOrdinal start) start

/-- `dates_to_process`: the generated list of `YYYYMMDD` keys (or the
uncaught `OverflowError`). -/
def dates_to_process (start e : CalDate) : Except Unit (List String) :=
  (dateRangeDates start e).map (List.map format_date)

/-- The cleaned record `process_holding` builds from an in-bounds holding
tuple (the happy path of the dict literal on lines 18-24). -/
def recordOf (date : String) (h : List JValue) : HoldingRecord :=
  { date := date
    ticker := (h.get? 0).getD .null
    name := (h.get? 1).getD .null
    sector := (h.get? 2).getD .null
    weight := extractWeight ((h.get? 5).getD .null) }

/-- Whether a record's weight column holds a number (the DataFrame stage
is exercised on numeric weight columns; pandas would reject sorting a
mixed-type column). -/
def numericWeight (r : HoldingRecord) : Bool :=
  match r.weight with
  | .num _ => true
  | _ => false

/-- A one-date example row. -/
def exR (t : String) (q : Rat) : HoldingRecord :=
  ⟨"2025-04-01", .str t, .str t, .str "T", .num q⟩

/-- The weights `[10, 10, 5]` example of the spec, on a single date. -/
def exRows : List HoldingRecord := [exR "A" 10, exR "B" 10, exR "C" 5]

instance exceptDecEq {ε α : Type} [DecidableEq ε] [DecidableEq α] :
    DecidableEq (Except ε α) := fun a b =>
  match a, b with
  | .error e, .error f =>
      decidable_of_iff (e = f) ⟨fun h => h ▸ rfl, fun h => by injection h⟩
  | .error _, .ok _ => isFalse (fun h => by injection h)
  | .ok _, .error _ => isFalse (fun h => by injection h)
  | .ok x, .ok y =>
      decidable_of_iff (x = y) ⟨fun h => h ▸ rfl, fun h => by injection h⟩

/-- Payload without an `aaData` key. -/
def pAbsent : JValue := .obj [("other", .num 1)]

/-- Payload with `aaData` equal to JSON `null`. -/
def pNull : JValue := .obj [("aaData", .null)]

/-- Payload with `aaData` equal to the empty list. -/
def pEmpty : JValue := .obj [("aaData", .arr [])]

theorem fileNames_append (a b : List (String × JValue)) :
    fileNames (a ++ b) = fileNames a ++ fileNames b := by
  simp [fileNames]

/-- One run of the orchestrator, characterized date by date: a date
succeeds iff its file already exists or the fetch yields data; one
request is issued per date without a pre-existing file; and exactly the
fetched-successfully dates gain files. -/
theorem runFetch_spec (u : String → Option (List Char)) (idx : String)
    (hk : knownIndex idx = true) :
    ∀ (dates : List String) (files : List (String × JValue)), dates.Nodup →
      (runFetch u idx files dates).1 =
        dates.map (fun d => (d, decide (d ∈ fileNames files) || fetchOk u idx d)) ∧
      (runFetch u idx files dates).2.1 =
        dates.countP (fun d => ! decide (d ∈ fileNames files)) ∧
      fileNames (runFetch u idx files dates).2.2 =
        fileNames files ++
          dates.filter (fun d => ! decide (d ∈ fileNames files) && fetchOk u idx d) := by
  intro dates
  induction dates with
  | nil => intro files _; exact ⟨rfl, rfl, by simp [runFetch]⟩
  | cons d ds ih =>
      intro files hnd
      have hd_not : d ∉ ds := (List.nodup_cons.1 hnd).1
      have hds : ds.Nodup := (List.nodup_cons.1 hnd).2
      have hok : ∃ o, get_constituents u d idx = .ok o := by
        unfold get_constituents
        rw [if_pos hk]
        exact ⟨_, rfl⟩
      obtain ⟨o, ho⟩ := hok
      by_cases hmem : d ∈ fileNames files
      · have hpd : orchestrateOne u idx files d = (true, 0, files) := by
          unfold orchestrateOne process_date
          rw [if_pos hmem]
        obtain ⟨ho1, ho2, ho3⟩ := ih files hds
        refine ⟨?_, ?_, ?_⟩
        · simp only [runFetch, hpd, ho1, List.map_cons, hmem, decide_eq_true_eq]
          simp [hmem]
        · simp only [runFetch, hpd, ho2]
          simp [List.countP_cons, hmem]
        · simp only [runFetch, hpd, ho3]
          simp [List.filter_cons, hmem]
      · cases o with
        | some data =>
            have hfo : fetchOk u idx d = true := by unfold fetchOk; rw [ho]
            have hpd : orchestrateOne u idx files d = (true, 1, files ++ [(d, data)]) := by
              unfold orchestrateOne process_date
              rw [if_neg hmem, ho]
            have hcong : ∀ d' ∈ ds,
                decide (d' ∈ fileNames (files ++ [(d, data)])) =
                  decide (d' ∈ fileNames files) := by
              intro d' hd'
              have hne : d' ≠ d := fun h => hd_not (h ▸ hd')
              simp [fileNames, hne]
            obtain ⟨ho1, ho2, ho3⟩ := ih (files ++ [(d, data)]) hds
            refine ⟨?_, ?_, ?_⟩
            · simp only [runFetch, hpd, ho1, List.map_cons]
              rw [List.map_congr_left (fun d' hd' => by rw [hcong d' hd'])]
              simp [hmem, hfo]
            · simp only [runFetch, hpd, ho2]
              rw [List.countP_congr (fun d' hd' => by rw [hcong d' hd'])]
              simp [List.countP_cons, hmem]
              omega
            · have hstep : (runFetch u idx files (d :: ds)).2.2 =
                  (runFetch u idx (files ++ [(d, data)]) ds).2.2 := by
                simp only [runFetch, hpd]
              rw [hstep, ho3]
              rw [List.filter_congr (fun d' hd' => by rw [hcong d' hd'])]
              simp only [List.filter_cons]
              simp [fileNames] at hmem ⊢
              simp [hmem, hfo]
        | none =>
            have hfo : fetchOk u idx d = false := by unfold fetchOk; rw [ho]
            have hpd : orchestrateOne u idx files d = (false, 1, files) := by
              unfold orchestrateOne process_date
              rw [if_neg hmem, ho]
            obtain ⟨ho1, ho2, ho3⟩ := ih files hds
            refine ⟨?_, ?_, ?_⟩
            · simp only [runFetch, hpd, ho1, List.map_cons]
              simp [hmem, hfo]
            · simp only [runFetch, hpd, ho2]
              simp [List.countP_cons, hmem]
              omega
            · simp only [runFetch, hpd, ho3]
              simp [List.filter_cons, hmem, hfo]


theorem isLeap_iff (y : Nat) : isLeap y = true ↔ ((4 ∣ y ∧ ¬ 100 ∣ y) ∨ 400 ∣ y) := by
  simp [isLeap, Bool.or_eq_true, Bool.and_eq_true, Nat.dvd_iff_mod_eq_zero]

theorem leapsBefore_succ (y : Nat) :
    leapsBefore (y + 1) = leapsBefore y + (if isLeap (y + 1) then 1 else 0) := by
  cases hL : isLeap (y + 1) with
  | true =>
      have hd := (isLeap_iff (y + 1)).1 hL
      simp only [Nat.dvd_iff_mod_eq_zero] at hd
      simp only [leapsBefore, hL, if_true]
      omega
  | false =>
      have hd : ¬ (((y + 1) % 4 = 0 ∧ ¬ (y + 1) % 100 = 0) ∨ (y + 1) % 400 = 0) := by
        intro h
        have ht : isLeap (y + 1) = true := by
          rw [isLeap_iff]
          simp only [Nat.dvd_iff_mod_eq_zero]
          exact h
        simp [ht] at hL
      have h400 : (y + 1) % 400 ≠ 0 := fun h => hd (Or.inr h)
      have h1 : (y + 1) % 4 ≠ 0 ∨ (y + 1) % 100 = 0 := by
        by_cases hm4 : (y + 1) % 4 = 0
        · by_cases hm100 : (y + 1) % 100 = 0
          · exact Or.inr hm100
          · exact absurd (Or.inl ⟨hm4, hm100⟩) hd
        · exact Or.inl hm4
      simp [leapsBefore, hL]
      rcases h1 with h1 | h1 <;> omega

theorem leapsBefore_mono {a b : Nat} (h : a ≤ b) : leapsBefore a ≤ leapsBefore b := by
  induction b with
  | zero =>
      have : a = 0 := Nat.le_zero.1 h
      simp [this]
  | succ b ih =>
      rcases Nat.lt_or_ge a (b + 1) with h' | h'
      · have hb := ih (Nat.lt_succ_iff.1 h')
        rw [leapsBefore_succ]
        split_ifs <;> omega
      · have : a = b + 1 := Nat.le_antisymm h h'
        simp [this]

theorem monthLength_le (L : Bool) (m : Nat) : monthLength L m ≤ 31 := by
  unfold monthLength
  split <;> first
    | omega
    | (cases L <;> simp)

theorem monthLength_pos (L : Bool) (m : Nat) : 1 ≤ monthLength L m := by
  unfold monthLength
  split <;> first
    | omega
    | (cases L <;> simp)

theorem daysBefore_succ (L : Bool) {m : Nat} (h1 : 1 ≤ m) (h2 : m ≤ 11) :
    daysBefore L (m + 1) = daysBefore L m + monthLength L m := by
  interval_cases m <;> cases L <;> rfl

theorem daysBefore_add_le (L : Bool) {m d : Nat} (h1 : 1 ≤ m) (h2 : m ≤ 12)
    (hd : d ≤ monthLength L m) : daysBefore L m + d ≤ 365 + (if L then 1 else 0) := by
  interval_cases m <;> cases L <;> simp [daysBefore, monthLength] at hd ⊢ <;> omega

theorem daysBefore_lt (L : Bool) {m1 d1 m2 : Nat} (h1 : 1 ≤ m1) (hm : m1 < m2)
    (h2 : m2 ≤ 12) (hd : d1 ≤ monthLength L m1) :
    daysBefore L m1 + d1 < daysBefore L m2 + 1 := by
  have hub : m1 ≤ 11 := by omega
  interval_cases m1 <;> interval_cases m2 <;> cases L <;>
    simp [daysBefore, monthLength] at hd ⊢ <;> omega

theorem toOrdinal_nextDay {dt : CalDate} (h : ValidYMD dt) :
    toOrdinal (nextDay dt) = toOrdinal dt + 1 := by
  obtain ⟨hy, hm1, hm2, hd1, hd2⟩ := h
  unfold nextDay
  split_ifs with h1 h2
  · unfold toOrdinal
    dsimp only
    omega
  · have hd : dt.d = monthLength (isLeap dt.y) dt.m := Nat.le_antisymm hd2 (Nat.not_lt.1 h1)
    have hstep := daysBefore_succ (isLeap dt.y) hm1 (by omega)
    unfold toOrdinal
    dsimp only
    omega
  · have hm : dt.m = 12 := by omega
    have hd31 : dt.d = 31 := by
      have := Nat.le_antisymm hd2 (Nat.not_lt.1 h1)
      rw [hm] at this
      simpa [monthLength] using this
    have hlast : daysBefore (isLeap dt.y) 12 + 31 = 365 + (if isLeap dt.y then 1 else 0) := by
      cases hiL : isLeap dt.y <;> simp [daysBefore]
    have hfirst : daysBefore (isLeap (dt.y + 1)) 1 = 0 := by
      cases hiL : isLeap (dt.y + 1) <;> simp [daysBefore]
    have hLs := leapsBefore_succ (dt.y - 1)
    rw [(by omega : dt.y - 1 + 1 = dt.y)] at hLs
    unfold toOrdinal
    dsimp only
    rw [(by omega : dt.y + 1 - 1 = dt.y), hfirst, hm]
    omega

theorem validYMD_nextDay {dt : CalDate} (h : ValidYMD dt) : ValidYMD (nextDay dt) := by
  obtain ⟨hy, hm1, hm2, hd1, hd2⟩ := h
  unfold nextDay
  split_ifs with h1 h2
  · exact ⟨hy, hm1, hm2, by show 1 ≤ dt.d + 1; omega,
      by show dt.d + 1 ≤ monthLength (isLeap dt.y) dt.m; omega⟩
  · exact ⟨hy, by show 1 ≤ dt.m + 1; omega, by show dt.m + 1 ≤ 12; omega,
      by show 1 ≤ 1; omega,
      by show 1 ≤ monthLength (isLeap dt.y) (dt.m + 1); exact monthLength_pos _ _⟩
  · exact ⟨by show 1 ≤ dt.y + 1; omega, by show 1 ≤ 1; omega, by show 1 ≤ 12; omega,
      by show 1 ≤ 1; omega,
      by show 1 ≤ monthLength (isLeap (dt.y + 1)) 1; exact monthLength_pos _ _⟩

theorem keyNum_nextDay {dt : CalDate} (h : ValidYMD dt) : keyNum dt < keyNum (nextDay dt) := by
  obtain ⟨hy, hm1, hm2, hd1, hd2⟩ := h
  have hlen := monthLength_le (isLeap dt.y) dt.m
  unfold nextDay keyNum
  split_ifs with h1 h2 <;> dsimp only <;> omega

theorem toOrdinal_lt_of_keyNum_lt {a b : CalDate} (ha : ValidYMD a) (hb : ValidYMD b)
    (h : keyNum a < keyNum b) : toOrdinal a < toOrdinal b := by
  obtain ⟨hay, ham1, ham2, had1, had2⟩ := ha
  obtain ⟨hby, hbm1, hbm2, hbd1, hbd2⟩ := hb
  have hla := monthLength_le (isLeap a.y) a.m
  have hlb := monthLength_le (isLeap b.y) b.m
  rcases Nat.lt_trichotomy a.y b.y with hy | hy | hy
  · have h1 : daysBefore (isLeap a.y) a.m + a.d ≤ 365 + (if isLeap a.y then 1 else 0) :=
      daysBefore_add_le _ ham1 ham2 had2
    have h2 : leapsBefore a.y = leapsBefore (a.y - 1) + (if isLeap a.y then 1 else 0) := by
      have h3 := leapsBefore_succ (a.y - 1)
      rw [(by omega : a.y - 1 + 1 = a.y)] at h3
      exact h3
    have h3 : leapsBefore a.y ≤ leapsBefore (b.y - 1) := leapsBefore_mono (by omega)
    unfold toOrdinal
    omega
  · have hL : isLeap b.y = isLeap a.y := by rw [hy]
    rcases Nat.lt_trichotomy a.m b.m with hm | hm | hm
    · have hlt := daysBefore_lt (isLeap a.y) ham1 hm hbm2 had2
      unfold toOrdinal
      rw [hL, ← hy]
      omega
    · have hdlt : a.d < b.d := by
        unfold keyNum at h
        omega
      unfold toOrdinal
      rw [hL, ← hy, ← hm]
      omega
    · exfalso
      unfold keyNum at h
      omega
  · exfalso
    unfold keyNum at h
    omega

theorem keyNum_inj {a b : CalDate} (ha : ValidYMD a) (hb : ValidYMD b)
    (h : keyNum a = keyNum b) : a = b := by
  obtain ⟨hay, ham1, ham2, had1, had2⟩ := ha
  obtain ⟨hby, hbm1, hbm2, hbd1, hbd2⟩ := hb
  have hla := monthLength_le (isLeap a.y) a.m
  have hlb := monthLength_le (isLeap b.y) b.m
  have hc : a.y = b.y ∧ a.m = b.m ∧ a.d = b.d := by
    unfold keyNum at h
    omega
  obtain ⟨e1, e2, e3⟩ := hc
  have : (⟨a.y, a.m, a.d⟩ : CalDate) = ⟨b.y, b.m, b.d⟩ := by rw [e1, e2, e3]
  exact this

theorem toOrdinal_le_iff {a b : CalDate} (ha : ValidYMD a) (hb : ValidYMD b) :
    keyNum a ≤ keyNum b ↔ toOrdinal a ≤ toOrdinal b := by
  constructor
  · intro h
    rcases Nat.lt_or_ge (keyNum a) (keyNum b) with h1 | h1
    · exact Nat.le_of_lt (toOrdinal_lt_of_keyNum_lt ha hb h1)
    · rw [keyNum_inj ha hb (Nat.le_antisymm h h1)]
  · intro h
    by_contra hc
    have h1 : keyNum b < keyNum a := Nat.lt_of_not_le hc
    have := toOrdinal_lt_of_keyNum_lt hb ha h1
    omega

theorem dateRangeAux_spec (e : CalDate) (he : ValidYMD e)
    (hemax : keyNum e < keyNum maxDate) :
    ∀ (fuel : Nat) (cur : CalDate), ValidYMD cur →
      fuel = toOrdinal e + 1 - toOrdinal cur →
      ∃ ds, dateRangeAux e fuel cur = .ok ds ∧
        ds.length = fuel ∧
        List.Pairwise (fun a b => keyNum a < keyNum b) ds ∧
        (∀ x ∈ ds, ValidYMD x ∧ keyNum x ≤ keyNum e ∧ keyNum cur ≤ keyNum x) := by
  intro fuel
  induction fuel with
  | zero =>
      intro cur hc hf
      refine ⟨[], rfl, rfl, List.Pairwise.nil, ?_⟩
      intro x hx
      simp at hx
  | succ fuel ih =>
      intro cur hc hf
      have hord : toOrdinal cur ≤ toOrdinal e := by omega
      have hkey : keyNum cur ≤ keyNum e := (toOrdinal_le_iff hc he).2 hord
      have hle : dateLE cur e = true := by
        unfold dateLE
        exact decide_eq_true hkey
      have hcur : cur ≠ maxDate := by
        intro hcm
        rw [hcm] at hkey
        omega
      have hnv := validYMD_nextDay hc
      have hnord := toOrdinal_nextDay hc
      have hknext := keyNum_nextDay hc
      obtain ⟨ds, ihok, ihlen, ihpw, ihmem⟩ := ih (nextDay cur) hnv (by omega)
      refine ⟨cur :: ds, ?_, by simp [ihlen], ?_, ?_⟩
      · show dateRangeAux e (fuel + 1) cur = .ok (cur :: ds)
        simp [dateRangeAux, hle, hcur, ihok]
      · refine List.Pairwise.cons ?_ ihpw
        intro x hx
        have := (ihmem x hx).2.2
        omega
      · intro x hx
        rcases List.mem_cons.1 hx with rfl | hx
        · exact ⟨hc, hkey, Nat.le_refl _⟩
        · obtain ⟨hv, hke, hlow⟩ := ihmem x hx
          exact ⟨hv, hke, by omega⟩

theorem dateRangeDates_nil {s e : CalDate} (h : toOrdinal e < toOrdinal s) :
    dateRangeDates s e = .ok [] := by
  unfold dateRangeDates
  rw [show toOrdinal e + 1 - toOrdinal s = 0 from by omega]
  rfl

theorem decChar_isDigit (n : Nat) : (decChar n).isDigit = true := by
  unfold decChar
  have h : n % 10 < 10 := Nat.mod_lt _ (by norm_num)
  set k := n % 10 with hk
  interval_cases k <;> decide

theorem yearChars_digits {y : Nat} {c : Char} (hc : c ∈ yearChars y) : c.isDigit = true := by
  unfold yearChars at hc
  split_ifs at hc <;> simp at hc <;>
    first
      | (rw [hc]; exact decChar_isDigit _)
      | (rcases hc with rfl | rfl; exacts [decChar_isDigit _, decChar_isDigit _])
      | (rcases hc with rfl | rfl | rfl;
         exacts [decChar_isDigit _, decChar_isDigit _, decChar_isDigit _])
      | (rcases hc with rfl | rfl | rfl | rfl;
         exacts [decChar_isDigit _, decChar_isDigit _, decChar_isDigit _, decChar_isDigit _])

theorem yearChars_length4 {y : Nat} (hy : 1000 ≤ y) : (yearChars y).length = 4 := by
  unfold yearChars
  rw [if_neg (by omega), if_neg (by omega), if_neg (by omega)]
  rfl

theorem format_date_length {dt : CalDate} (hy : 1000 ≤ dt.y) :
    (format_date dt).length = 8 := by
  show (yearChars dt.y ++
    [decChar (dt.m / 10), decChar dt.m, decChar (dt.d / 10), decChar dt.d]).length = 8
  rw [List.length_append, yearChars_length4 hy]
  rfl

theorem format_date_digits (dt : CalDate) : ∀ c ∈ (format_date dt).data, c.isDigit = true := by
  intro c hc
  have hc' : c ∈ yearChars dt.y ++
      [decChar (dt.m / 10), decChar dt.m, decChar (dt.d / 10), decChar dt.d] := hc
  rcases List.mem_append.1 hc' with hy | hmd
  · exact yearChars_digits hy
  · simp at hmd
    rcases hmd with rfl | rfl | rfl | rfl <;> exact decChar_isDigit _

/-! ## Cleaner lemmas -/

theorem processEntries_skip (date : String) (e : JValue) (he : entryOutcome date e = some none) :
    ∀ pre suf, processEntries date (pre ++ e :: suf) = processEntries date (pre ++ suf) := by
  intro pre
  induction pre with
  | nil =>
      intro suf
      simp [processEntries, he]
  | cons p pre ih =>
      intro suf
      simp only [List.cons_append, processEntries, List.append_eq, ih suf]

/-- C4: a positional access failure (`IndexError`) on one holding makes
`process_holding` return `None`; the file's loop then contributes exactly
the records of the remaining holdings — the failing holding alone is
dropped. -/
theorem C4_holding_error_contained (date : String) (h : List JValue)
    (pre suf : List JValue)
    (herr : h.get? 3 = none ∨ (h.get? 3 = some (.str "Equity") ∧ h.get? 5 = none)) :
    process_holding h date = none ∧
    processEntries date (pre ++ JValue.arr h :: suf) = processEntries date (pre ++ suf) := by
  have hnone : process_holding h date = none := by
    rcases herr with h3 | ⟨h3, h5⟩
    · unfold process_holding
      rw [h3]
    · have h5' : h[5]? = none := by
        rw [← List.get?_eq_getElem?]
        exact h5
      unfold process_holding
      rw [h3]
      simp [h5']
  exact ⟨hnone, processEntries_skip date _ (by simp [entryOutcome, hnone]) pre suf⟩

theorem C4_holding_error_contained_witness :
    processEntries "2025-04-01"
        [JValue.arr [.str "T1", .str "N1", .str "S1", .str "Equity", .null,
           .obj [("raw", .num 7)]],
         JValue.arr [.str "X"],
         JValue.arr [.str "T2", .str "N2", .str "S2", .str "Equity", .null,
           .obj [("raw", .num 3)]]] =
      processEntries "2025-04-01"
        [JValue.arr [.str "T1", .str "N1", .str "S1", .str "Equity", .null,
           .obj [("raw", .num 7)]],
         JValue.arr [.str "T2", .str "N2", .str "S2", .str "Equity", .null,
           .obj [("raw", .num 3)]]] :=
  (C4_holding_error_contained "2025-04-01" [.str "X"]
    [JValue.arr [.str "T1", .str "N1", .str "S1", .str "Equity", .null,
       .obj [("raw", .num 7)]]]
    [JValue.arr [.str "T2", .str "N2", .str "S2", .str "Equity", .null,
       .obj [("raw", .num 3)]]]
    (Or.inl rfl)).2

/-- C7: an `'Equity'` holding whose weight slot is not a dict (a number,
`null`, ...) — or is a dict without a `'raw'` key — cleans to a record
with weight `0` instead of raising. -/
theorem C7_malformed_weight_default (date : String) (t n s u w : JValue)
    (rest : List JValue)
    (hw : (∀ fs, w ≠ JValue.obj fs) ∨ (∃ fs, w = JValue.obj fs ∧ jLookup "raw" fs = none)) :
    process_holding ([t, n, s, JValue.str "Equity", u, w] ++ rest) date =
      some ⟨date, t, n, s, JValue.num 0⟩ := by
  have hw0 : extractWeight w = JValue.num 0 := by
    rcases hw with hno | ⟨fs, rfl, hlk⟩
    · cases w <;> first | rfl | exact absurd rfl (hno _)
    · simp [extractWeight, hlk]
  simp [process_holding, hw0]

theorem C7_malformed_weight_default_witness :
    process_holding [.str "T", .str "N", .str "S", .str "Equity", .null, .num 5]
        "2025-04-01" =
      some ⟨"2025-04-01", .str "T", .str "N", .str "S", JValue.num 0⟩ :=
  C7_malformed_weight_default "2025-04-01" (.str "T") (.str "N") (.str "S") .null
    (.num 5) [] (Or.inl (fun _ h => JValue.noConfusion h))


/-- C6: on a file whose holdings are all in-bounds tuples, the cleaner
keeps exactly the rows whose asset-class slot is `'Equity'`, each cleaned
to a record whose sector is the input's position-2 value and whose weight
is extracted from the input's weight container; `extractWeight` returns
the `'raw'` value itself whenever one is present. -/
theorem C6_equity_filter (date : String) (hs : List (List JValue))
    (hlen : ∀ h ∈ hs, 6 ≤ h.length) :
    processEntries date (hs.map JValue.arr) =
      some ((hs.filter
          (fun h => decide (h.get? 3 = some (JValue.str "Equity")))).map (recordOf date)) ∧
    (∀ fs v, jLookup "raw" fs = some v → extractWeight (JValue.obj fs) = v) := by
  constructor
  · induction hs with
    | nil => rfl
    | cons h rest ih =>
        have hl := hlen h (List.mem_cons_self h rest)
        have ihr := ih (fun x hx => hlen x (List.mem_cons_of_mem _ hx))
        obtain ⟨a3, ha3⟩ : ∃ v, h.get? 3 = some v := by
          cases hq : h.get? 3 with
          | none => exact absurd (List.get?_eq_none.1 hq) (by omega)
          | some v => exact ⟨v, rfl⟩
        obtain ⟨a5, ha5⟩ : ∃ v, h.get? 5 = some v := by
          cases hq : h.get? 5 with
          | none => exact absurd (List.get?_eq_none.1 hq) (by omega)
          | some v => exact ⟨v, rfl⟩
        have hph : process_holding h date =
            if h.get? 3 = some (JValue.str "Equity") then some (recordOf date h) else none := by
          unfold process_holding
          rw [ha3]
          cases a3 with
          | str tag =>
              by_cases ht : tag = "Equity"
              · subst ht
                rw [ha5]
                have ha5' : h[5]? = some a5 := by
                  rw [← List.get?_eq_getElem?]
                  exact ha5
                simp [recordOf, ha5']
              · simp [ht, ha3]
          | null => simp [ha3]
          | bool b => simp [ha3]
          | num q => simp [ha3]
          | arr xs => simp [ha3]
          | obj fs => simp [ha3]
        simp only [List.map_cons, processEntries, entryOutcome, hph]
        by_cases hcond : h.get? 3 = some (JValue.str "Equity")
        · simp only [if_pos hcond, ihr, Option.map_some]
          rw [List.filter_cons_of_pos (by simpa using hcond)]
          simp
        · simp only [if_neg hcond, ihr, Option.map_some]
          rw [List.filter_cons_of_neg (by simpa using hcond)]
          rfl
  · intro fs v hlk
    simp [extractWeight, hlk]

theorem C6_equity_filter_witness :
    processEntries "2025-04-01"
        [JValue.arr [.str "EQ", .str "N1", .str "Tech", .str "Equity", .null,
           .obj [("raw", .num 7)]],
         JValue.arr [.str "BD", .str "N2", .str "Cash", .str "Bond", .null,
           .obj [("raw", .num 3)]]] =
      some [recordOf "2025-04-01"
        [.str "EQ", .str "N1", .str "Tech", .str "Equity", .null, .obj [("raw", .num 7)]]] :=
  (C6_equity_filter "2025-04-01"
    [[.str "EQ", .str "N1", .str "Tech", .str "Equity", .null, .obj [("raw", .num 7)]],
     [.str "BD", .str "N2", .str "Cash", .str "Bond", .null, .obj [("raw", .num 3)]]]
    (by decide)).1

/-! ## DataFrame-stage claims -/


/-- C9: the combined output's row order is the canonical global sort —
the rows of `historical.csv` are exactly the cleaned records, ordered
ascending by date and, within a date, descending by weight. -/
theorem C9_global_sort (rows : List HoldingRecord) (_hnum : rows.all numericWeight = true) :
    (combinedOutput rows).map (fun p => p.2) = sortRows rows ∧
    List.Sorted rowLE (sortRows rows) ∧
    (sortRows rows).Perm rows :=
  ⟨by
    simp only [combinedOutput, List.map_map]
    rw [show ((fun p : Nat × HoldingRecord => p.2) ∘ fun r => (minRank rows r, r)) =
      fun r : HoldingRecord => r from rfl]
    exact List.map_id' _,
   List.sorted_insertionSort rowLE rows, List.perm_insertionSort rowLE rows⟩

theorem C9_global_sort_witness :
    (combinedOutput
          [⟨"2025-04-02", .str "B", .str "B", .str "T", .num 3⟩,
           ⟨"2025-04-01", .str "A", .str "A", .str "T", .num 7⟩]).map (fun p => p.2) =
        sortRows
          [⟨"2025-04-02", .str "B", .str "B", .str "T", .num 3⟩,
           ⟨"2025-04-01", .str "A", .str "A", .str "T", .num 7⟩] ∧
      List.Sorted rowLE (sortRows
        [⟨"2025-04-02", .str "B", .str "B", .str "T", .num 3⟩,
         ⟨"2025-04-01", .str "A", .str "A", .str "T", .num 7⟩]) ∧
      (sortRows
        [⟨"2025-04-02", .str "B", .str "B", .str "T", .num 3⟩,
         ⟨"2025-04-01", .str "A", .str "A", .str "T", .num 7⟩]).Perm
        [⟨"2025-04-02", .str "B", .str "B", .str "T", .num 3⟩,
         ⟨"2025-04-01", .str "A", .str "A", .str "T", .num 7⟩] :=
  C9_global_sort
    [⟨"2025-04-02", .str "B", .str "B", .str "T", .num 3⟩,
     ⟨"2025-04-01", .str "A", .str "A", .str "T", .num 7⟩] (by decide)


/-- C1: on one date with weights `[10, 10, 5]` the combined output's
tie-aware (`method='min'`) ranks are `[1, 1, 3]` while the per-date
file's sequential positional ranks are `[1, 2, 3]`; in general the
combined ranking gives tied weights of a date equal ranks, and a
per-date file's rank column is always `1..count` over the same
descending-weight order. -/
theorem C1_ranking_discrepancy :
    ((combinedOutput exRows).map (fun p => p.1) = [1, 1, 3] ∧
     (dailyFile exRows "2025-04-01").map (fun p => p.1) = [1, 2, 3]) ∧
    (∀ (rows : List HoldingRecord) (r1 r2 : HoldingRecord),
        r1.date = r2.date → weightVal r1 = weightVal r2 →
        minRank rows r1 = minRank rows r2) ∧
    (∀ (rows : List HoldingRecord) (date : String),
        (dailyFile rows date).map (fun p => p.1) =
          List.range' 1 (dailySorted rows date).length) := by
  refine ⟨⟨by decide, by decide⟩, ?_, ?_⟩
  · intro rows r1 r2 hd hw
    unfold minRank
    simp only [hd, hw]
  · intro rows date
    unfold dailyFile
    have hlen : (List.range' 1 (dailySorted rows date).length).length ≤
        (dailySorted rows date).length := by
      rw [List.length_range']
    simpa using List.map_fst_zip _ _ hlen

theorem C1_ranking_discrepancy_witness :
    minRank exRows (exR "A" 10) = minRank exRows (exR "B" 10) :=
  C1_ranking_discrepancy.2.1 exRows (exR "A" 10) (exR "B" 10) rfl rfl

/-! ## Fetcher claims -/


/-- C8 counterexample: for a body that itself begins with a byte-order
mark, prefixing one more marker does NOT parse identically —
`utf-8-sig` strips only one marker, and `json.loads` rejects a text that
still starts with one.  `"﻿1"` parses as `1` bare, but fails with a
marker prefixed. -/
theorem C8_bom_counterexample :
    ¬ (parseResponse (bomChar :: (bomChar :: ['1'])) = parseResponse (bomChar :: ['1'])) := by
  decide

/-- C8 (amended): for every response body that does not itself begin
with a byte-order mark, parsing the marker-prefixed body yields exactly
the same parsed payload as parsing the body — the marker is stripped
before JSON parsing. -/
theorem C8_bom_strip (body : List Char) (hb : body.head? ≠ some bomChar) :
    parseResponse (bomChar :: body) = parseResponse body := by
  unfold parseResponse
  have h1 : stripBom (bomChar :: body) = body := by simp [stripBom]
  have h2 : stripBom body = body := by
    cases body with
    | nil => rfl
    | cons c r =>
        have hc : ¬ c = bomChar := fun h => hb (by simp [h])
        simp [stripBom, hc]
  rw [h1, h2]

theorem C8_bom_strip_witness :
    parseResponse (bomChar :: ['1']) = parseResponse ['1'] :=
  C8_bom_strip ['1'] (by decide)


/-- C10: the fetcher's empty-result test fires exactly on
`aaData == []`; payloads with `aaData` absent or null count as data (and
`process_date` persists them), while the cleaner yields zero records for
absent, null and empty alike — so the two emptiness tests disagree
(witness: the null payload). -/
theorem C10_emptiness_mismatch :
    (∀ fs, handleParsed (.obj fs) = none ↔ jLookup "aaData" fs = some (.arr [])) ∧
    (handleParsed pAbsent = some pAbsent ∧ handleParsed pNull = some pNull) ∧
    process_date (fun _ => some ("\x7b\"aaData\": null\x7d".data)) "spx500" [] "20250401" =
      .ok (true, 1, [("20250401", pNull)]) ∧
    (processPayload "20250401" pAbsent = [] ∧ cleanerSkipsPayload pAbsent = true) ∧
    (processPayload "20250401" pNull = [] ∧ cleanerSkipsPayload pNull = true) ∧
    (processPayload "20250401" pEmpty = [] ∧ cleanerSkipsPayload pEmpty = true ∧
      handleParsed pEmpty = none) ∧
    ¬ (∀ p : JValue, handleParsed p = none ↔ cleanerSkipsPayload p = true) := by
  refine ⟨?_, by decide, by decide, by decide, by decide, by decide, ?_⟩
  · intro fs
    constructor
    · intro h
      by_contra hne
      simp [handleParsed, hne] at h
    · intro h
      simp [handleParsed, h]
  · intro hall
    have hmono := (hall pNull).2 (by decide)
    exact absurd hmono (by decide)

theorem C10_emptiness_mismatch_witness :
    handleParsed (.obj [("aaData", .null)]) = none ↔
      jLookup "aaData" [("aaData", JValue.null)] = some (.arr []) :=
  C10_emptiness_mismatch.1 [("aaData", .null)]

/-- C2 (the code, evaluated at the failing input): with the unknown
index `"unknown_index"`, two dates, and an existing snapshot file for
the first date, the run does NOT abort: the first date still
short-circuits as a success, the second date's `AssertionError` is
caught by the aggregation loop's bare `except` and merely counted as a
non-success, and the run completes with zero requests. -/
theorem C2_unknown_index_not_fail_fast :
    runFetch (fun _ => none) "unknown_index" [("20250401", JValue.null)]
        ["20250401", "20250402"] =
      ([("20250401", true), ("20250402", false)], 0, [("20250401", JValue.null)]) := by
  decide

/-- C3 counterexample: with an upstream that (unchanged across runs)
returns no data for the single date — here a body parsing to JSON
`null`, so the fetch yields `None` and no file is written — the second
run issues 1 network request, not 0: only successful dates leave the
resumption marker behind. -/
theorem C3_idempotence_counterexample :
    ¬ ((runFetch (fun _ => some "null".data) "spx500"
          (runFetch (fun _ => some "null".data) "spx500" [] ["20250401"]).2.2
          ["20250401"]).2.1 = 0) := by
  decide

/-- C3 (amended): over distinct dates and a known index, with the same
upstream both times, the second run reports the same success count as
the first, issues one request exactly for each date the first run left
without a file (the first-run failures), and in particular issues zero
requests when every date succeeded in the first run. -/
theorem C3_second_run (u : String → Option (List Char)) (idx : String)
    (files : List (String × JValue)) (dates : List String)
    (hnd : dates.Nodup) (hk : knownIndex idx = true) :
    successCount (runFetch u idx (runFetch u idx files dates).2.2 dates).1 =
      successCount (runFetch u idx files dates).1 ∧
    (runFetch u idx (runFetch u idx files dates).2.2 dates).2.1 =
      dates.countP (fun d => ! (decide (d ∈ fileNames files) || fetchOk u idx d)) ∧
    (successCount (runFetch u idx files dates).1 = dates.length →
      (runFetch u idx (runFetch u idx files dates).2.2 dates).2.1 = 0) := by
  obtain ⟨r1o, r1c, r1f⟩ := runFetch_spec u idx hk dates files hnd
  obtain ⟨r2o, r2c, r2f⟩ := runFetch_spec u idx hk dates (runFetch u idx files dates).2.2 hnd
  have hmem1 : ∀ d ∈ dates,
      (decide (d ∈ fileNames (runFetch u idx files dates).2.2) : Bool) =
        (decide (d ∈ fileNames files) || fetchOk u idx d) := by
    intro d hd
    rw [r1f]
    by_cases h1 : d ∈ fileNames files
    · simp [h1]
    · cases hfo : fetchOk u idx d with
      | true => simp [h1, hfo, List.mem_filter, hd]
      | false => simp [h1, hfo, List.mem_filter]
  have hsucc1 : successCount (runFetch u idx files dates).1 =
      dates.countP (fun d => decide (d ∈ fileNames files) || fetchOk u idx d) := by
    rw [r1o]
    unfold successCount
    rw [List.countP_map]
    rfl
  have hsucc2 : successCount (runFetch u idx (runFetch u idx files dates).2.2 dates).1 =
      dates.countP (fun d => decide (d ∈ fileNames files) || fetchOk u idx d) := by
    rw [r2o]
    unfold successCount
    rw [List.countP_map]
    apply List.countP_congr
    intro d hd
    simp only [Function.comp]
    rw [hmem1 d hd, Bool.or_assoc, Bool.or_self]
  have hcalls2 : (runFetch u idx (runFetch u idx files dates).2.2 dates).2.1 =
      dates.countP (fun d => ! (decide (d ∈ fileNames files) || fetchOk u idx d)) := by
    rw [r2c]
    apply List.countP_congr
    intro d hd
    rw [hmem1 d hd]
  refine ⟨by rw [hsucc1, hsucc2], hcalls2, ?_⟩
  intro hall
  rw [hsucc1] at hall
  have hAllTrue := List.countP_eq_length.1 hall
  rw [hcalls2]
  apply List.countP_eq_zero.2
  intro d hd
  rw [hAllTrue d hd]
  simp

theorem C3_second_run_witness :
    successCount (runFetch (fun _ => none) "spx500"
        (runFetch (fun _ => none) "spx500" [] ["20250401"]).2.2 ["20250401"]).1 =
      successCount (runFetch (fun _ => none) "spx500" [] ["20250401"]).1 :=
  (C3_second_run (fun _ => none) "spx500" [] ["20250401"] (by decide) (by decide)).1

/-- C5 counterexample: the claim fails on the code at two in-range
inputs.  With `start = end = 999-12-31` (a valid pair with start ≤ end)
the single generated key is `"9991231"` — `strftime('%Y')` does not pad
years below 1000, so the key has 7 characters, not 8.  With
`start = end = 9999-12-31` the loop's increment of `datetime.max`'s date
raises an uncaught `OverflowError`, so the run dies instead of producing
the one-entry range. -/
theorem C5_date_range_counterexample :
    (Valid ⟨999, 12, 31⟩ ∧
      dates_to_process ⟨999, 12, 31⟩ ⟨999, 12, 31⟩ = .ok ["9991231"] ∧
      ¬ ("9991231".length = 8)) ∧
    (Valid ⟨9999, 12, 31⟩ ∧
      dates_to_process ⟨9999, 12, 31⟩ ⟨9999, 12, 31⟩ = .error ()) := by
  decide

/-- C5 (amended): for valid `datetime` dates with `end` before
`datetime.max`'s date (so the day increment never overflows), the
generation completes and the key list has exactly
`(end − start in days) + 1` entries (the formula
`toOrdinal e + 1 - toOrdinal s` truncates to 0 when `start > end`, where
the loop produces the empty list and terminates); the underlying dates
are strictly increasing (as numeric `YYYYMMDD` keys) and all
representable; and — provided the start year is at least 1000, where
`%Y` renders four digits — every rendered key is an 8-character digit
string. -/
theorem C5_date_range_generator (s e : CalDate) (hs : Valid s) (he : Valid e)
    (hemax : e ≠ maxDate) :
    (∃ ds, dateRangeDates s e = .ok ds) ∧
    ∀ ds, dateRangeDates s e = .ok ds →
      ds.length = toOrdinal e + 1 - toOrdinal s ∧
      (toOrdinal e < toOrdinal s → ds = []) ∧
      List.Pairwise (fun a b => a < b) (ds.map keyNum) ∧
      (∀ x ∈ ds, Valid x) ∧
      dates_to_process s e = .ok (ds.map format_date) ∧
      (1000 ≤ s.y →
        ∀ k ∈ ds.map format_date, k.length = 8 ∧ ∀ c ∈ k.data, c.isDigit = true) := by
  obtain ⟨hsv, hsy⟩ := hs
  obtain ⟨hev, hey⟩ := he
  have hm2 : e.m ≤ 12 := hev.2.2.1
  have hd2 : e.d ≤ monthLength (isLeap e.y) e.m := hev.2.2.2.2
  have hdle := monthLength_le (isLeap e.y) e.m
  have hmd : keyNum maxDate = 99991231 := rfl
  have hemax' : keyNum e < keyNum maxDate := by
    rcases Nat.lt_or_ge (keyNum e) 99991231 with h | h
    · omega
    · exfalso
      have hc : e.y = 9999 ∧ e.m = 12 ∧ e.d = 31 := by
        unfold keyNum at h
        omega
      apply hemax
      obtain ⟨e1, e2, e3⟩ := hc
      have h2 : (⟨e.y, e.m, e.d⟩ : CalDate) = ⟨9999, 12, 31⟩ := by rw [e1, e2, e3]
      exact h2
  obtain ⟨ds0, h0, hlen, hpw, hmem⟩ :=
    dateRangeAux_spec e hev hemax' (toOrdinal e + 1 - toOrdinal s) s hsv rfl
  have h1 : dateRangeDates s e = .ok ds0 := h0
  refine ⟨⟨ds0, h1⟩, ?_⟩
  intro ds hds
  have hinj : ds0 = ds := by injection h1.symm.trans hds
  subst hinj
  refine ⟨hlen, ?_, ?_, ?_, ?_, ?_⟩
  · intro hlt
    have h2 := h1.symm.trans (dateRangeDates_nil hlt)
    injection h2
  · rw [List.pairwise_map]
    exact hpw
  · intro x hx
    obtain ⟨hv, hke, _⟩ := hmem x hx
    refine ⟨hv, ?_⟩
    unfold keyNum at hke
    omega
  · unfold dates_to_process
    rw [h1]
    rfl
  · intro hy1000 k hk
    obtain ⟨x, hx, rfl⟩ := List.mem_map.1 hk
    obtain ⟨hv, hke, hlow⟩ := hmem x hx
    have hxm : x.m ≤ 12 := hv.2.2.1
    have hxd : x.d ≤ monthLength (isLeap x.y) x.m := hv.2.2.2.2
    have hxdle := monthLength_le (isLeap x.y) x.m
    have hxy : 1000 ≤ x.y := by
      unfold keyNum at hlow
      omega
    exact ⟨format_date_length hxy, format_date_digits x⟩

theorem C5_date_range_generator_witness :
    ([(⟨2025, 4, 1⟩ : CalDate), ⟨2025, 4, 2⟩, ⟨2025, 4, 3⟩].length =
      toOrdinal ⟨2025, 4, 3⟩ + 1 - toOrdinal ⟨2025, 4, 1⟩) :=
  ((C5_date_range_generator ⟨2025, 4, 1⟩ ⟨2025, 4, 3⟩ (by decide) (by decide)
      (by decide)).2 [⟨2025, 4, 1⟩, ⟨2025, 4, 2⟩, ⟨2025, 4, 3⟩] (by decide)).1

end IShares
